import Mathlib

set_option maxRecDepth 2048

/-!
Verification of the capture → replay → extraction pipeline of the
automated-app-testing repository.

The Python sources are shallowly embedded: JSON values become an inductive
type, dict operations become association-list operations with Python dict
semantics (insertion order preserved, assignment replaces in place), the
network call of the replayer becomes an oracle function passed as an
argument, and code that can raise an exception returns `Except`/`Option`.
-/

/-- A JSON value, as produced by Python's `json.loads`. Numbers are modelled
as rationals (the prices occurring in the pipeline are exact decimals). -/
inductive Json where
  | null : Json
  | bool : Bool → Json
  | num : ℚ → Json
  | str : String → Json
  | arr : List Json → Json
  | obj : List (String × Json) → Json

namespace Json

/-- Python `d[k]` / `k in d` on a dict: first binding of the key in the
association list (a Python dict holds each key once). On a non-object the
model yields `none`, matching the places where the sources first test
membership with `in`. -/
def getKey : Json → String → Option Json
  | .obj fields, k => fields.lookup k
  | _, _ => none

/-- Python truthiness of a JSON-decoded value (`if result:` and friends):
`None`, `False`, `0`, `""`, `[]` and `{}` are falsy. -/
def truthy : Json → Bool
  | .null => false
  | .bool b => b
  | .num q => q != 0
  | .str s => s != ""
  | .arr xs => !xs.isEmpty
  | .obj fs => !fs.isEmpty

end Json

/-- Python `d[k] = v` on a dict: replace the value in place if the key is
present (keeping insertion order), otherwise append the new binding. A
Python dict holds each key at most once, so replacing the first occurrence
is assignment. -/
def setKey : List (String × Json) → String → Json → List (String × Json)
  | [], k, v => [(k, v)]
  | (k1, v1) :: t, k, v =>
    if k1 = k then (k1, v) :: t else (k1, v1) :: setKey t k v

/-- Python `base.update(upd)` on dicts: assign each binding of `upd` in
order on top of `base`. -/
def dictUpdate (base upd : List (String × Json)) : List (String × Json) :=
  upd.foldl (fun acc kv => setKey acc kv.1 kv.2) base

/-! ## Extractor (`src/extract_products.py`) -/

/-- One catalog entry built by the extractor:
`{"item": item["goodsName"], "price": item["memberPrice"] / 100}`. -/
structure Product where
  item : String
  price : ℚ
deriving DecidableEq

/-- The deduplication key of a product. The source computes the string
`f"{product['item']}_{product['price']}"`; since the price's rendering
contains no underscore, that string determines the (name, price) pair, so
the key is modelled as the pair itself. -/
def item_key (p : Product) : String × ℚ :=
  (p.item, p.price)

/-- The loop body `product = {"item": item["goodsName"], "price":
item["memberPrice"] / 100}`. A missing key raises `KeyError` (modelled as
`Except.error`), and a `memberPrice` that is not a number would raise on
division; `goodsName` values other than strings are outside the modelled
fragment and also map to an error. -/
def itemToProduct (it : Json) : Except String Product :=
  match it.getKey "goodsName" with
  | none => .error "KeyError: goodsName"
  | some g =>
    match it.getKey "memberPrice" with
    | none => .error "KeyError: memberPrice"
    | some m =>
      match g, m with
      | .str name, .num price => .ok ⟨name, price / 100⟩
      | _, _ => .error "TypeError"

/-- The aggregated catalog: `products = defaultdict(list)`, keyed by keyword
in order of first append. -/
abbrev Catalog := List (String × List Product)

/-- Python `products[keyword].append(product)` on a `defaultdict(list)`:
extend the keyword's list, creating it on first use. -/
def addToCatalog (cat : Catalog) (kw : String) (p : Product) : Catalog :=
  match cat with
  | [] => [(kw, [p])]
  | (k, ps) :: rest =>
    if k = kw then (k, ps ++ [p]) :: rest
    else (k, ps) :: addToCatalog rest kw p

/-- The inner loop `for item in data["data"]["b2c"]["onSaleList"]` with the
shared deduplication set `existing_items` (modelled as a list used as a
set) and the catalog accumulated so far. -/
def processItems (kw : String) (items : List Json)
    (st : List (String × ℚ) × Catalog) :
    Except String (List (String × ℚ) × Catalog) :=
  match items with
  | [] => .ok st
  | it :: rest =>
    match itemToProduct it with
    | .error e => .error e
    | .ok p =>
      if item_key p ∈ st.1 then processItems kw rest st
      else processItems kw rest (item_key p :: st.1, addToCatalog st.2 kw p)

/-- The guard `"data" in data and "b2c" in data["data"] and "onSaleList" in
data["data"]["b2c"]`, returning the `onSaleList` value when the nested path
of objects exists. -/
def pathOnSaleList (j : Json) : Option Json :=
  match j.getKey "data" with
  | none => none
  | some d =>
    match d.getKey "b2c" with
    | none => none
    | some b =>
      b.getKey "onSaleList"

/-- The outer loop over the result files. The keyword of a file is the
filename stripped of the `search_results_` prefix and `.json` suffix; the
model takes the (keyword, parsed JSON) pairs directly, in glob order. A
file whose `onSaleList` value is not a JSON array cannot be iterated as a
list of item objects; the resulting `TypeError` is modelled as an error. -/
def extractGo (files : List (String × Json))
    (st : List (String × ℚ) × Catalog) : Except String Catalog :=
  match files with
  | [] => .ok st.2
  | (kw, j) :: rest =>
    match pathOnSaleList j with
    | none => extractGo rest st
    | some v =>
      match v with
      | .arr items =>
        match processItems kw items st with
        | .error e => .error e
        | .ok st2 => extractGo rest st2
      | _ => .error "TypeError: onSaleList is not a list"

/-- `extract_all_products`: scan the result files, extract and deduplicate
products. `.ok cat` means the aggregated output file is written with
contents `cat`; `.error e` means the top-level `except` reports the single
error `e` and no output file is written. -/
def extract_all_products (files : List (String × Json)) :
    Except String Catalog :=
  extractGo files ([], [])

/-- All product records of a catalog, across every keyword. -/
def catProducts (cat : Catalog) : List Product :=
  (cat.map Prod.snd).flatten

/-! ## Replayer (`src/request_replayer.py`) -/

/-- The keyword-argument record passed to `requests.request(**kwargs)`:
`method`, `url` and `headers` always, `params` and `data` when present. -/
structure HttpKwargs where
  method : Json
  url : Json
  headers : Json
  params : Option (List (String × Json))
  data : Option Json

/-- One HTTP response: its status code and the result of `response.json()`
(`none` when the body fails JSON parsing). -/
structure HttpResp where
  status : Nat
  body : Option Json

/-- The transport: issuing a request either raises (modelled as `none`, for
example a connection failure) or yields a response. The real network is a
parameter of the model. -/
abbrev HttpOracle := HttpKwargs → Option HttpResp

/-- The `params` block of `replay_request`:
`params = request_data["params"].copy() if request_data["params"] else {}`
then `if modified_params: params.update(modified_params)`.
`none` models the `AttributeError` raised by `.copy()` on a truthy
non-dict `params` value (caught by the surrounding `except`). -/
def buildParams (v : Json) (modified_params : Option (List (String × Json))) :
    Option (List (String × Json)) :=
  match (if v.truthy then some v else some (.obj [])) with
  | some (.obj fs) =>
    match modified_params with
    | some mp => if mp.isEmpty then some fs else some (dictUpdate fs mp)
    | none => some fs
  | _ => none

/-- The `data` kwarg: `if "body" in request_data and request_data["body"]:
kwargs["data"] = request_data["body"]`. -/
def bodyArg (request_data : List (String × Json)) : Option Json :=
  match request_data.lookup "body" with
  | some b => if b.truthy then some b else none
  | none => none

/-- The tail of `replay_request` after `requests.request(**kwargs)`: a
raised transport exception, a non-200 status or an undecodable body each
yield `None`, otherwise the decoded JSON is returned. -/
def respToResult : Option HttpResp → Option Json
  | none => none
  | some resp => if resp.status ≠ 200 then none else resp.body

/-- `RequestReplayer.replay_request`: validate the required fields, build
the kwargs, issue the request through the oracle, and return the decoded
JSON body, or `None` on any failure (missing field, raised exception,
non-200 status, undecodable body). -/
def replay_request (http : HttpOracle) (request_data : List (String × Json))
    (modified_params : Option (List (String × Json))) : Option Json :=
  match request_data.lookup "method", request_data.lookup "url",
      request_data.lookup "headers" with
  | some m, some u, some h =>
    let paramsArg : Option (Option (List (String × Json))) :=
      match request_data.lookup "params" with
      | none => some none
      | some v =>
        match buildParams v modified_params with
        | none => none
        | some fs => some (some fs)
    match paramsArg with
    | none => none
    | some ps => respToResult (http ⟨m, u, h, ps, bodyArg request_data⟩)
  | _, _, _ => none

/-- `RequestReplayer.replay_with_modifications`: for every loaded captured
request and every parameter variation, replay once; keep the results the
`if result:` test accepts. -/
def replay_with_modifications (http : HttpOracle)
    (captured : List (List (String × Json)))
    (param_variations : List (List (String × Json))) : List Json :=
  if captured.isEmpty then []
  else
    captured.foldl
      (fun results request =>
        param_variations.foldl
          (fun results params =>
            match replay_request http request (some params) with
            | some r => if r.truthy then results ++ [r] else results
            | none => results)
          results)
      []

/-! ## Keyword driver (`src/api_searcher.py`, `search_all_keywords`) -/

/-- The per-keyword derivation of `search_all_keywords`: skip the baseline
keyword `"苹果"`; for every other keyword, parse the baseline request's
body, assign `body_dict["keywords"] = keyword`, and replay the request
carrying the re-serialised body. The result lists, in order, the replays
that are issued: one per non-baseline keyword, paired with the body of the
derived request. -/
def derivedRequests (baselineBody : List (String × Json))
    (keywords : List String) :
    List (String × List (String × Json)) :=
  (keywords.filter (fun kw => kw ≠ "苹果")).map
    (fun kw => (kw, setKey baselineBody "keywords" (.str kw)))

/-! ## Capture addon (`src/pagoda_proxy.py`) -/

/-- A UTF-8 continuation byte. -/
def contByte (b : Nat) : Bool :=
  decide (0x80 ≤ b ∧ b < 0xC0)

/-- Strict UTF-8 decoding of a byte sequence, as Python's
`bytes.decode("utf-8")`: rejects stray continuation bytes, overlong
encodings, surrogates and out-of-range lead bytes; `none` models the
raised `UnicodeDecodeError`. -/
def utf8DecodeAux : List Nat → Option (List Char)
  | [] => some []
  | b :: rest =>
    if b < 0x80 then (utf8DecodeAux rest).map (List.cons (Char.ofNat b))
    else if b < 0xC2 then none
    else if b < 0xE0 then
      match rest with
      | b1 :: r =>
        if contByte b1 then
          (utf8DecodeAux r).map
            (List.cons (Char.ofNat ((b - 0xC0) * 64 + (b1 - 0x80))))
        else none
      | [] => none
    else if b < 0xF0 then
      match rest with
      | b1 :: b2 :: r =>
        if (if b = 0xE0 then decide (0xA0 ≤ b1 ∧ b1 < 0xC0)
            else if b = 0xED then decide (0x80 ≤ b1 ∧ b1 < 0xA0)
            else contByte b1) && contByte b2 then
          (utf8DecodeAux r).map
            (List.cons (Char.ofNat
              ((b - 0xE0) * 4096 + (b1 - 0x80) * 64 + (b2 - 0x80))))
        else none
      | _ => none
    else if b < 0xF5 then
      match rest with
      | b1 :: b2 :: b3 :: r =>
        if (if b = 0xF0 then decide (0x90 ≤ b1 ∧ b1 < 0xC0)
            else if b = 0xF4 then decide (0x80 ≤ b1 ∧ b1 < 0x90)
            else contByte b1) && contByte b2 && contByte b3 then
          (utf8DecodeAux r).map
            (List.cons (Char.ofNat
              ((b - 0xF0) * 262144 + (b1 - 0x80) * 4096
                + (b2 - 0x80) * 64 + (b3 - 0x80))))
        else none
      | _ => none
    else none

/-- `bytes.decode("utf-8")`, strict. -/
def utf8Decode (bs : List Nat) : Option String :=
  (utf8DecodeAux bs).map List.asString

/-- Does `needle` occur as a contiguous sublist of the haystack? Models the
Python substring test `needle in hay`. -/
def hasSubList (needle : List Char) : List Char → Bool
  | [] => needle.isEmpty
  | c :: t => needle.isPrefixOf (c :: t) || hasSubList needle t

/-- Python `needle in hay` for strings. -/
def strContainsSub (hay needle : String) : Bool :=
  hasSubList needle.toList hay.toList

/-- The part of a mitmproxy flow that `RequestCapture.request` reads:
`flow.request.pretty_url`, `.method`, `.headers`, `.query` and the raw
body bytes `.content` (`none` when absent). -/
structure MitmRequest where
  pretty_url : String
  method : String
  headers : List (String × String)
  query : List (String × String)
  content : Option (List Nat)

/-- One record of the capture log, as built by `RequestCapture.request`:
`{"url": ..., "method": ..., "headers": dict(...), "params": dict(...),
"body": decoded content or None}`. -/
structure CapturedRequest where
  url : String
  method : String
  headers : List (String × String)
  params : List (String × String)
  body : Option String
deriving DecidableEq

/-- `RequestCapture.request`: on a flow whose URL contains `"searchGoods"`,
build a `CapturedRequest` and append it to `self.captured_requests`.
The method contains no exception handling, so a `UnicodeDecodeError`
raised by `flow.request.content.decode("utf-8")` propagates to the proxy
host; `.error` models that raised exception. `if flow.request.content`
is falsy for an absent or empty body, which is recorded as `None`. -/
def RequestCapture.request (st : List CapturedRequest) (flow : MitmRequest) :
    Except String (List CapturedRequest) :=
  if strContainsSub flow.pretty_url "searchGoods" then
    match flow.content with
    | some bs =>
      if bs.isEmpty then
        .ok (st ++ [⟨flow.pretty_url, flow.method, flow.headers,
          flow.query, none⟩])
      else
        match utf8Decode bs with
        | none => .error "UnicodeDecodeError"
        | some s =>
          .ok (st ++ [⟨flow.pretty_url, flow.method, flow.headers,
            flow.query, some s⟩])
    | none =>
      .ok (st ++ [⟨flow.pretty_url, flow.method, flow.headers,
        flow.query, none⟩])
  else .ok st

/-! ## The capture log on disk (`json.dump` / `json.load`)

`RequestCapture.request` persists the captured sequence with
`json.dump(self.captured_requests, f, ensure_ascii=False, indent=2)` and
`RequestReplayer.load_captured_requests` reads it back with `json.load`.
The serialised text is modelled below character by character; `indent=2`
only inserts whitespace that `json.load` discards, so the model emits the
canonical single-space separators. -/

/-- An opening curly brace character. -/
def lbrace : Char := '\x7b'

/-- A closing curly brace character. -/
def rbrace : Char := '\x7d'

/-- Lowercase hexadecimal digit, as Python's `%04x` formatting emits. -/
def hexDigitChar (n : Nat) : Char :=
  if n < 10 then Char.ofNat (48 + n) else Char.ofNat (87 + n)

/-- The value of one hexadecimal digit accepted by `json.load`. -/
def hexVal (c : Char) : Option Nat :=
  if 48 ≤ c.toNat ∧ c.toNat ≤ 57 then some (c.toNat - 48)
  else if 97 ≤ c.toNat ∧ c.toNat ≤ 102 then some (c.toNat - 87)
  else if 65 ≤ c.toNat ∧ c.toNat ≤ 70 then some (c.toNat - 55)
  else none

/-- `json.dump` escaping of one character with `ensure_ascii=False`:
quote, backslash and the named control characters get two-character
escapes, the remaining control characters get `\u00xx`, and every other
character is written literally. -/
def escapeChar (c : Char) : List Char :=
  if c = '"' then ['\\', '"']
  else if c = '\\' then ['\\', '\\']
  else if c = Char.ofNat 8 then ['\\', 'b']
  else if c = Char.ofNat 9 then ['\\', 't']
  else if c = Char.ofNat 10 then ['\\', 'n']
  else if c = Char.ofNat 12 then ['\\', 'f']
  else if c = Char.ofNat 13 then ['\\', 'r']
  else if c.toNat < 32 then
    ['\\', 'u', '0', '0', hexDigitChar (c.toNat / 16),
      hexDigitChar (c.toNat % 16)]
  else [c]

/-- Escape a whole string body. -/
def escapeList (cs : List Char) : List Char :=
  (cs.map escapeChar).flatten

/-- A JSON string literal. -/
def dumpStringLit (s : String) : List Char :=
  '"' :: escapeList s.toList ++ ['"']

/-- The members of a string-to-string JSON object, separated by `", "`. -/
def dumpPairsBody : List (String × String) → List Char
  | [] => []
  | [(k, v)] => dumpStringLit k ++ ':' :: ' ' :: dumpStringLit v
  | (k, v) :: rest =>
    dumpStringLit k ++ ':' :: ' ' :: dumpStringLit v
      ++ ',' :: ' ' :: dumpPairsBody rest

/-- A string-to-string JSON object. -/
def dumpPairs (ps : List (String × String)) : List Char :=
  lbrace :: dumpPairsBody ps ++ [rbrace]

/-- One `CapturedRequest` as the JSON object written by
`RequestCapture.request`, fields in insertion order. -/
def dumpReq (r : CapturedRequest) : List Char :=
  lbrace :: ("\"url\": ").toList ++ dumpStringLit r.url
    ++ (", \"method\": ").toList ++ dumpStringLit r.method
    ++ (", \"headers\": ").toList ++ dumpPairs r.headers
    ++ (", \"params\": ").toList ++ dumpPairs r.params
    ++ (", \"body\": ").toList
    ++ (match r.body with
        | none => ("null").toList
        | some s => dumpStringLit s)
    ++ [rbrace]

/-- The members of the top-level JSON array. -/
def dumpLogBody : List CapturedRequest → List Char
  | [] => []
  | [r] => dumpReq r
  | r :: rest => dumpReq r ++ ',' :: ' ' :: dumpLogBody rest

/-- `json.dump(self.captured_requests, f, ensure_ascii=False)`: the full
text of the capture log file. -/
def writeCaptureLog (rs : List CapturedRequest) : String :=
  ('[' :: dumpLogBody rs ++ [']']).asString

/-- Consume an expected literal prefix. -/
def dropLit (lit cs : List Char) : Option (List Char) :=
  if lit.isPrefixOf cs then some (cs.drop lit.length) else none

/-- Read four hexadecimal digits of a `\uXXXX` escape. -/
def readHex4 : List Char → Option (Nat × List Char)
  | h1 :: h2 :: h3 :: h4 :: rest =>
    match hexVal h1, hexVal h2, hexVal h3, hexVal h4 with
    | some n1, some n2, some n3, some n4 =>
      some (((n1 * 16 + n2) * 16 + n3) * 16 + n4, rest)
    | _, _, _, _ => none
  | _ => none

theorem readHex4_length (cs : List Char) (n : Nat) (r : List Char)
    (h : readHex4 cs = some (n, r)) : r.length + 4 = cs.length := by
  match cs with
  | h1 :: h2 :: h3 :: h4 :: rest =>
    simp only [readHex4] at h
    split at h
    · simp only [Option.some.injEq, Prod.mk.injEq] at h
      obtain ⟨h1, h2⟩ := h
      subst h2
      simp only [List.length_cons]
      try omega
    · simp at h
  | [] => simp [readHex4] at h
  | [_] => simp [readHex4] at h
  | [_, _] => simp [readHex4] at h
  | [_, _, _] => simp [readHex4] at h

/-- Decode one escape sequence after a backslash, as `json.load` does.
Surrogate-pair escapes, which the dump never produces, are outside the
modelled fragment. -/
def unescape : List Char → Option (Char × List Char)
  | [] => none
  | e :: rest =>
    if e = '"' then some ('"', rest)
    else if e = '\\' then some ('\\', rest)
    else if e = '/' then some ('/', rest)
    else if e = 'b' then some (Char.ofNat 8, rest)
    else if e = 't' then some (Char.ofNat 9, rest)
    else if e = 'n' then some (Char.ofNat 10, rest)
    else if e = 'f' then some (Char.ofNat 12, rest)
    else if e = 'r' then some (Char.ofNat 13, rest)
    else if e = 'u' then
      (readHex4 rest).map (fun pr => (Char.ofNat pr.1, pr.2))
    else none

theorem unescape_length (cs : List Char) (d : Char) (r : List Char)
    (h : unescape cs = some (d, r)) : r.length < cs.length := by
  match cs with
  | [] => simp [unescape] at h
  | e :: rest =>
    simp only [unescape] at h
    split_ifs at h
    all_goals
      try (simp only [Option.some.injEq, Prod.mk.injEq] at h
           obtain ⟨h1, h2⟩ := h
           subst h2
           simp only [List.length_cons]
           omega)
    simp only [Option.map_eq_some'] at h
    obtain ⟨⟨n, r2⟩, hr, heq⟩ := h
    have := readHex4_length rest n r2 hr
    simp only [Prod.mk.injEq] at heq
    obtain ⟨h1, h2⟩ := heq
    subst h2
    simp only [List.length_cons]
    omega

/-- Decode the body of a JSON string literal up to its closing quote,
returning the decoded characters and the remaining input. -/
def parseStrChars (cs : List Char) : Option (List Char × List Char) :=
  match cs with
  | [] => none
  | c :: rest =>
    if c = '"' then some ([], rest)
    else if c = '\\' then
      match h : unescape rest with
      | none => none
      | some (d, rest2) =>
        (parseStrChars rest2).map (fun pr => (d :: pr.1, pr.2))
    else (parseStrChars rest).map (fun pr => (c :: pr.1, pr.2))
termination_by cs.length
decreasing_by
  · have := unescape_length _ d rest2 h
    simp only [List.length_cons]
    omega
  · simp only [List.length_cons]
    omega

theorem parseStrChars_length (cs : List Char) :
    ∀ s r, parseStrChars cs = some (s, r) → r.length < cs.length := by
  induction cs using parseStrChars.induct with
  | case1 =>
    intro s r h
    simp [parseStrChars] at h
  | case2 rest =>
    intro s r h
    simp [parseStrChars] at h
    simp [← h.2]
  | case3 rest hu hq =>
    intro s r h
    simp only [parseStrChars, if_neg hq] at h
    rw [if_true] at h
    split at h
    · simp at h
    · rename_i d2 r2 heq
      rw [hu] at heq
      simp at heq
  | case4 rest d rest2 hu hq ih =>
    intro s r h
    simp only [parseStrChars, if_neg hq] at h
    rw [if_true] at h
    split at h
    · rename_i heq
      rw [hu] at heq
      simp at heq
    · rename_i d2 r2 heq
      rw [hu] at heq
      simp only [Option.some.injEq, Prod.mk.injEq] at heq
      obtain ⟨hd, hr⟩ := heq
      subst hd
      subst hr
      simp only [Option.map_eq_some'] at h
      obtain ⟨⟨s2, r3⟩, hp, heq2⟩ := h
      have h1 := ih s2 r3 hp
      have h2 := unescape_length rest d rest2 hu
      simp only [Prod.mk.injEq] at heq2
      obtain ⟨heq3, heq4⟩ := heq2
      subst heq4
      simp only [List.length_cons]
      omega
  | case5 e rest hq hb ih =>
    intro s r h
    simp only [parseStrChars, if_neg hq, if_neg hb, Option.map_eq_some'] at h
    obtain ⟨⟨s2, r2⟩, hp, heq⟩ := h
    have h1 := ih s2 r2 hp
    simp only [Prod.mk.injEq] at heq
    obtain ⟨heq1, heq2⟩ := heq
    subst heq2
    simp only [List.length_cons]
    omega

theorem dropLit_length (lit cs r : List Char) (h : dropLit lit cs = some r) :
    r.length + lit.length = cs.length := by
  simp only [dropLit] at h
  split_ifs at h with hp
  simp only [Option.some.injEq] at h
  subst h
  have hle : lit.length ≤ cs.length :=
    (List.isPrefixOf_iff_prefix.mp hp).length_le
  simp only [List.length_drop]
  omega

theorem dropLit_length_lt (lit cs r : List Char) (hne : lit ≠ [])
    (h : dropLit lit cs = some r) : r.length < cs.length := by
  have := dropLit_length lit cs r h
  have : 0 < lit.length := List.length_pos.mpr hne
  omega

/-- Parse one `"key": "value"` member of a string-to-string object,
starting at the key's opening quote. -/
def parseOnePair (cs : List Char) : Option ((String × String) × List Char) :=
  match dropLit ['"'] cs with
  | none => none
  | some c1 =>
    match parseStrChars c1 with
    | none => none
    | some (k, c2) =>
      match dropLit [':', ' '] c2 with
      | none => none
      | some c3 =>
        match dropLit ['"'] c3 with
        | none => none
        | some c4 =>
          match parseStrChars c4 with
          | none => none
          | some (v, c5) => some ((k.asString, v.asString), c5)

theorem parseOnePair_length (cs : List Char) (p : String × String)
    (r : List Char) (h : parseOnePair cs = some (p, r)) :
    r.length < cs.length := by
  simp only [parseOnePair] at h
  split at h
  · simp at h
  · rename_i c1 h1
    split at h
    · simp at h
    · rename_i k c2 h2
      split at h
      · simp at h
      · rename_i c3 h3
        split at h
        · simp at h
        · rename_i c4 h4
          split at h
          · simp at h
          · rename_i v c5 h5
            simp only [Option.some.injEq, Prod.mk.injEq] at h
            obtain ⟨hp2, hr⟩ := h
            subst hr
            have l1 := dropLit_length_lt _ _ _ (by simp) h1
            have l2 := parseStrChars_length _ _ _ h2
            have l3 := dropLit_length_lt _ _ _ (by simp) h3
            have l4 := dropLit_length_lt _ _ _ (by simp) h4
            have l5 := parseStrChars_length _ _ _ h5
            omega

/-- Parse the members of a string-to-string object after its opening
brace, through the closing brace. -/
def parsePairsBody (cs : List Char) :
    Option (List (String × String) × List Char) :=
  match dropLit [rbrace] cs with
  | some rest => some ([], rest)
  | none =>
    match h1 : parseOnePair cs with
    | none => none
    | some (kv, c5) =>
      match h2 : dropLit [',', ' '] c5 with
      | some c6 =>
        match parsePairsBody c6 with
        | none => none
        | some (ps, c7) => some (kv :: ps, c7)
      | none =>
        match dropLit [rbrace] c5 with
        | none => none
        | some c6 => some ([kv], c6)
termination_by cs.length
decreasing_by
  have l1 := parseOnePair_length _ _ _ h1
  have l2 := dropLit_length_lt _ _ _ (by simp) h2
  omega

theorem parsePairsBodyLenAux :
    ∀ (n : Nat) (cs : List Char), cs.length < n → ∀ ps r,
      parsePairsBody cs = some (ps, r) → r.length < cs.length := by
  intro n
  induction n with
  | zero =>
    intro cs hlen
    exact absurd hlen (by omega)
  | succ n ih =>
    intro cs hlen ps r h
    rw [parsePairsBody.eq_def] at h
    split at h
    · rename_i rest hbr
      simp only [Option.some.injEq, Prod.mk.injEq] at h
      obtain ⟨h1, h2⟩ := h
      subst h2
      exact dropLit_length_lt _ _ _ (by simp) hbr
    · split at h
      · simp at h
      · rename_i kv c5 hop
        split at h
        · rename_i c6 hcm
          split at h
          · simp at h
          · rename_i ps2 c7 hrec
            simp only [Option.some.injEq, Prod.mk.injEq] at h
            obtain ⟨h1, h2⟩ := h
            subst h2
            have l1 := parseOnePair_length _ _ _ hop
            have l2 := dropLit_length_lt _ _ _ (by simp) hcm
            have l3 := ih c6 (by omega) ps2 c7 hrec
            omega
        · rename_i hcm
          split at h
          · simp at h
          · rename_i c6 hbr2
            simp only [Option.some.injEq, Prod.mk.injEq] at h
            obtain ⟨h1, h2⟩ := h
            subst h2
            have l1 := parseOnePair_length _ _ _ hop
            have l2 := dropLit_length_lt _ _ _ (by simp) hbr2
            omega

theorem parsePairsBody_length (cs : List Char) (ps : List (String × String))
    (r : List Char) (h : parsePairsBody cs = some (ps, r)) :
    r.length < cs.length :=
  parsePairsBodyLenAux (cs.length + 1) cs (by omega) ps r h

/-- Parse one serialised `CapturedRequest` object. -/
def parseReq (cs : List Char) : Option (CapturedRequest × List Char) :=
  match dropLit (lbrace :: ("\"url\": \"").toList) cs with
  | none => none
  | some c1 =>
    match parseStrChars c1 with
    | none => none
    | some (url, c2) =>
      match dropLit ((", \"method\": \"").toList) c2 with
      | none => none
      | some c3 =>
        match parseStrChars c3 with
        | none => none
        | some (mth, c4) =>
          match dropLit ((", \"headers\": ").toList ++ [lbrace]) c4 with
          | none => none
          | some c5 =>
            match parsePairsBody c5 with
            | none => none
            | some (hs, c6) =>
              match dropLit ((", \"params\": ").toList ++ [lbrace]) c6 with
              | none => none
              | some c7 =>
                match parsePairsBody c7 with
                | none => none
                | some (qs, c8) =>
                  match dropLit ((", \"body\": ").toList) c8 with
                  | none => none
                  | some c9 =>
                    match dropLit (("null").toList ++ [rbrace]) c9 with
                    | some c10 =>
                      some (⟨url.asString, mth.asString, hs, qs, none⟩, c10)
                    | none =>
                      match dropLit ['"'] c9 with
                      | none => none
                      | some c10 =>
                        match parseStrChars c10 with
                        | none => none
                        | some (b, c11) =>
                          match dropLit [rbrace] c11 with
                          | none => none
                          | some c12 =>
                            some (⟨url.asString, mth.asString, hs, qs,
                              some b.asString⟩, c12)

theorem parseReq_length (cs : List Char) (p : CapturedRequest)
    (r : List Char) (h : parseReq cs = some (p, r)) : r.length < cs.length := by
  simp only [parseReq] at h
  split at h
  · simp at h
  · rename_i c1 h1
    split at h
    · simp at h
    · rename_i url c2 h2
      split at h
      · simp at h
      · rename_i c3 h3
        split at h
        · simp at h
        · rename_i mth c4 h4
          split at h
          · simp at h
          · rename_i c5 h5
            split at h
            · simp at h
            · rename_i hs c6 h6
              split at h
              · simp at h
              · rename_i c7 h7
                split at h
                · simp at h
                · rename_i qs c8 h8
                  split at h
                  · simp at h
                  · rename_i c9 h9
                    have l1 := dropLit_length_lt _ _ _ (by decide) h1
                    have l2 := parseStrChars_length _ _ _ h2
                    have l3 := dropLit_length_lt _ _ _ (by decide) h3
                    have l4 := parseStrChars_length _ _ _ h4
                    have l5 := dropLit_length_lt _ _ _ (by decide) h5
                    have l6 := parsePairsBody_length _ _ _ h6
                    have l7 := dropLit_length_lt _ _ _ (by decide) h7
                    have l8 := parsePairsBody_length _ _ _ h8
                    have l9 := dropLit_length_lt _ _ _ (by decide) h9
                    split at h
                    · rename_i c10 h10
                      simp only [Option.some.injEq, Prod.mk.injEq] at h
                      obtain ⟨hp2, hr⟩ := h
                      subst hr
                      have l10 := dropLit_length_lt _ _ _ (by decide) h10
                      omega
                    · rename_i h10
                      split at h
                      · simp at h
                      · rename_i c10 h11
                        split at h
                        · simp at h
                        · rename_i b c11 h12
                          split at h
                          · simp at h
                          · rename_i c12 h13
                            simp only [Option.some.injEq, Prod.mk.injEq] at h
                            obtain ⟨hp2, hr⟩ := h
                            subst hr
                            have l11 := dropLit_length_lt _ _ _ (by decide) h11
                            have l12 := parseStrChars_length _ _ _ h12
                            have l13 := dropLit_length_lt _ _ _ (by decide) h13
                            omega

/-- Parse the members of the top-level array after its opening bracket,
through the closing bracket. -/
def parseLogBody (cs : List Char) :
    Option (List CapturedRequest × List Char) :=
  match dropLit [']'] cs with
  | some rest => some ([], rest)
  | none =>
    match h1 : parseReq cs with
    | none => none
    | some (r, c1) =>
      match h2 : dropLit [',', ' '] c1 with
      | some c2 =>
        match parseLogBody c2 with
        | none => none
        | some (rs2, c3) => some (r :: rs2, c3)
      | none =>
        match dropLit [']'] c1 with
        | none => none
        | some c2 => some ([r], c2)
termination_by cs.length
decreasing_by
  have l1 := parseReq_length _ _ _ h1
  have l2 := dropLit_length_lt _ _ _ (by simp) h2
  omega

/-- Parse a whole capture-log file: the top-level array with nothing but
its contents. -/
def parseLog (cs : List Char) : Option (List CapturedRequest) :=
  match dropLit ['['] cs with
  | none => none
  | some c1 =>
    match parseLogBody c1 with
    | some (rs, []) => some rs
    | _ => none

/-- `RequestReplayer.load_captured_requests`: `json.load` on the capture
file's text, with the record fields read back; an unreadable file
(`FileNotFoundError`, `json.JSONDecodeError`) yields `[]`. -/
def load_captured_requests (content : String) : List CapturedRequest :=
  match parseLog content.toList with
  | some rs => rs
  | none => []

theorem dropLit_append (lit rest : List Char) :
    dropLit lit (lit ++ rest) = some rest := by
  simp only [dropLit]
  rw [if_pos (List.isPrefixOf_iff_prefix.mpr ⟨rest, rfl⟩)]
  simp

theorem parseStrChars_quote (tail : List Char) :
    parseStrChars ('"' :: tail) = some ([], tail) := by
  rw [parseStrChars.eq_def]
  simp

theorem parseStrChars_plain (c : Char) (tail : List Char) (hq : c ≠ '"')
    (hb : c ≠ '\\') :
    parseStrChars (c :: tail)
      = (parseStrChars tail).map (fun pr => (c :: pr.1, pr.2)) := by
  rw [parseStrChars.eq_def]
  simp only [if_neg hq, if_neg hb]

theorem parseStrChars_backslash (tail : List Char) (d : Char)
    (tl2 : List Char) (hu : unescape tail = some (d, tl2)) :
    parseStrChars ('\\' :: tail)
      = (parseStrChars tl2).map (fun pr => (d :: pr.1, pr.2)) := by
  rw [parseStrChars.eq_def]
  simp only [if_neg (by decide : ¬('\\' : Char) = '"'), eq_self_iff_true,
    if_true]
  split
  · rename_i heq
    rw [hu] at heq
    simp at heq
  · rename_i d2 r2 heq
    rw [hu] at heq
    simp only [Option.some.injEq, Prod.mk.injEq] at heq
    obtain ⟨h1, h2⟩ := heq
    subst h1
    subst h2
    rfl

theorem hexVal_hexDigitChar (m : Nat) (hm : m < 16) :
    hexVal (hexDigitChar m) = some m := by
  interval_cases m <;> decide

theorem unescape_u (d1 d2 : Char) (t : List Char) (n1 n2 : Nat)
    (h1 : hexVal d1 = some n1) (h2 : hexVal d2 = some n2) :
    unescape ('u' :: '0' :: '0' :: d1 :: d2 :: t)
      = some (Char.ofNat (((0 * 16 + 0) * 16 + n1) * 16 + n2), t) := by
  have hstep : unescape ('u' :: '0' :: '0' :: d1 :: d2 :: t)
      = (readHex4 ('0' :: '0' :: d1 :: d2 :: t)).map
          (fun pr => (Char.ofNat pr.1, pr.2)) := rfl
  rw [hstep]
  simp only [readHex4]
  rw [show hexVal '0' = some 0 from rfl, h1, h2]
  rfl

theorem parseStrChars_escapeList (cs : List Char) : ∀ rest,
    parseStrChars (escapeList cs ++ '"' :: rest) = some (cs, rest) := by
  induction cs with
  | nil =>
    intro rest
    have : escapeList [] = ([] : List Char) := by simp [escapeList]
    rw [this, List.nil_append]
    exact parseStrChars_quote rest
  | cons c cs ih =>
    intro rest
    have hesc : escapeList (c :: cs) = escapeChar c ++ escapeList cs := by
      simp [escapeList]
    rw [hesc, List.append_assoc]
    by_cases h1 : c = '"'
    · subst h1
      rw [show escapeChar '"' = ['\\', '"'] from rfl]
      rw [show (['\\', '"'] : List Char) ++ (escapeList cs ++ '"' :: rest)
        = '\\' :: '"' :: (escapeList cs ++ '"' :: rest) from rfl]
      rw [parseStrChars_backslash _ _ _ (rfl :
        unescape ('"' :: (escapeList cs ++ '"' :: rest))
          = some ('"', escapeList cs ++ '"' :: rest))]
      rw [ih rest]
      rfl
    by_cases h2 : c = '\\'
    · subst h2
      rw [show escapeChar '\\' = ['\\', '\\'] from rfl]
      rw [show (['\\', '\\'] : List Char) ++ (escapeList cs ++ '"' :: rest)
        = '\\' :: '\\' :: (escapeList cs ++ '"' :: rest) from rfl]
      rw [parseStrChars_backslash _ _ _ (rfl :
        unescape ('\\' :: (escapeList cs ++ '"' :: rest))
          = some ('\\', escapeList cs ++ '"' :: rest))]
      rw [ih rest]
      rfl
    by_cases h3 : c = Char.ofNat 8
    · subst h3
      rw [show escapeChar (Char.ofNat 8) = ['\\', 'b'] from rfl]
      rw [show (['\\', 'b'] : List Char) ++ (escapeList cs ++ '"' :: rest)
        = '\\' :: 'b' :: (escapeList cs ++ '"' :: rest) from rfl]
      rw [parseStrChars_backslash _ _ _ (rfl :
        unescape ('b' :: (escapeList cs ++ '"' :: rest))
          = some (Char.ofNat 8, escapeList cs ++ '"' :: rest))]
      rw [ih rest]
      rfl
    by_cases h4 : c = Char.ofNat 9
    · subst h4
      rw [show escapeChar (Char.ofNat 9) = ['\\', 't'] from rfl]
      rw [show (['\\', 't'] : List Char) ++ (escapeList cs ++ '"' :: rest)
        = '\\' :: 't' :: (escapeList cs ++ '"' :: rest) from rfl]
      rw [parseStrChars_backslash _ _ _ (rfl :
        unescape ('t' :: (escapeList cs ++ '"' :: rest))
          = some (Char.ofNat 9, escapeList cs ++ '"' :: rest))]
      rw [ih rest]
      rfl
    by_cases h5 : c = Char.ofNat 10
    · subst h5
      rw [show escapeChar (Char.ofNat 10) = ['\\', 'n'] from rfl]
      rw [show (['\\', 'n'] : List Char) ++ (escapeList cs ++ '"' :: rest)
        = '\\' :: 'n' :: (escapeList cs ++ '"' :: rest) from rfl]
      rw [parseStrChars_backslash _ _ _ (rfl :
        unescape ('n' :: (escapeList cs ++ '"' :: rest))
          = some (Char.ofNat 10, escapeList cs ++ '"' :: rest))]
      rw [ih rest]
      rfl
    by_cases h6 : c = Char.ofNat 12
    · subst h6
      rw [show escapeChar (Char.ofNat 12) = ['\\', 'f'] from rfl]
      rw [show (['\\', 'f'] : List Char) ++ (escapeList cs ++ '"' :: rest)
        = '\\' :: 'f' :: (escapeList cs ++ '"' :: rest) from rfl]
      rw [parseStrChars_backslash _ _ _ (rfl :
        unescape ('f' :: (escapeList cs ++ '"' :: rest))
          = some (Char.ofNat 12, escapeList cs ++ '"' :: rest))]
      rw [ih rest]
      rfl
    by_cases h7 : c = Char.ofNat 13
    · subst h7
      rw [show escapeChar (Char.ofNat 13) = ['\\', 'r'] from rfl]
      rw [show (['\\', 'r'] : List Char) ++ (escapeList cs ++ '"' :: rest)
        = '\\' :: 'r' :: (escapeList cs ++ '"' :: rest) from rfl]
      rw [parseStrChars_backslash _ _ _ (rfl :
        unescape ('r' :: (escapeList cs ++ '"' :: rest))
          = some (Char.ofNat 13, escapeList cs ++ '"' :: rest))]
      rw [ih rest]
      rfl
    by_cases h8 : c.toNat < 32
    · have hesc2 : escapeChar c = ['\\', 'u', '0', '0',
          hexDigitChar (c.toNat / 16), hexDigitChar (c.toNat % 16)] := by
        rw [escapeChar]
        rw [if_neg h1, if_neg h2, if_neg h3, if_neg h4, if_neg h5,
          if_neg h6, if_neg h7, if_pos h8]
      rw [hesc2]
      have hu := unescape_u (hexDigitChar (c.toNat / 16))
        (hexDigitChar (c.toNat % 16)) (escapeList cs ++ '"' :: rest)
        (c.toNat / 16) (c.toNat % 16)
        (hexVal_hexDigitChar _ (by omega))
        (hexVal_hexDigitChar _ (Nat.mod_lt _ (by norm_num)))
      have harith : ((0 * 16 + 0) * 16 + c.toNat / 16) * 16 + c.toNat % 16
          = c.toNat := by omega
      rw [harith] at hu
      rw [show (['\\', 'u', '0', '0', hexDigitChar (c.toNat / 16),
          hexDigitChar (c.toNat % 16)] : List Char)
          ++ (escapeList cs ++ '"' :: rest)
        = '\\' :: 'u' :: '0' :: '0' :: hexDigitChar (c.toNat / 16)
          :: hexDigitChar (c.toNat % 16) :: (escapeList cs ++ '"' :: rest)
        from rfl]
      rw [parseStrChars_backslash _ _ _ hu]
      rw [ih rest]
      simp [Char.ofNat_toNat]
    · have hesc2 : escapeChar c = [c] := by
        rw [escapeChar]
        rw [if_neg h1, if_neg h2, if_neg h3, if_neg h4, if_neg h5,
          if_neg h6, if_neg h7, if_neg h8]
      rw [hesc2]
      rw [show ([c] : List Char) ++ (escapeList cs ++ '"' :: rest)
        = c :: (escapeList cs ++ '"' :: rest) from rfl]
      rw [parseStrChars_plain c _ h1 h2]
      rw [ih rest]
      rfl

theorem asStringToList (s : String) : (s.toList).asString = s := rfl

theorem toListAsString (l : List Char) : (l.asString).toList = l := rfl

theorem dropLit_cons (c : Char) (lit cs : List Char) :
    dropLit (c :: lit) (c :: cs) = dropLit lit cs := by
  simp only [dropLit, List.isPrefixOf, beq_self_eq_true, Bool.true_and,
    List.length_cons, List.drop_succ_cons]

theorem dropLit_nil (cs : List Char) : dropLit [] cs = some cs := by
  simp [dropLit]

theorem dumpStringLit_append (s : String) (x : List Char) :
    dumpStringLit s ++ x = '"' :: (escapeList s.toList ++ '"' :: x) := by
  simp [dumpStringLit]

theorem parseOnePair_dump (k v : String) (rest : List Char) :
    parseOnePair (dumpStringLit k ++ ':' :: ' ' :: (dumpStringLit v ++ rest))
      = some ((k, v), rest) := by
  rw [dumpStringLit_append v rest, dumpStringLit_append k]
  simp only [parseOnePair, dropLit_cons, dropLit_nil,
    parseStrChars_escapeList, asStringToList]

theorem parsePairsBody_rbrace (x : List Char) :
    parsePairsBody (rbrace :: x) = some ([], x) := by
  rw [parsePairsBody.eq_def]
  simp only [dropLit_cons, dropLit_nil]

theorem parsePairsBody_last (cs : List Char) (kv : String × String)
    (c5 c6 : List Char)
    (hbr : dropLit [rbrace] cs = none)
    (hop : parseOnePair cs = some (kv, c5))
    (hcm : dropLit [',', ' '] c5 = none)
    (hbr2 : dropLit [rbrace] c5 = some c6) :
    parsePairsBody cs = some ([kv], c6) := by
  rw [parsePairsBody.eq_def]
  simp only [hbr]
  split
  · rename_i heq
    rw [hop] at heq
    simp at heq
  · rename_i kv2 c52 heq
    rw [hop] at heq
    simp only [Option.some.injEq, Prod.mk.injEq] at heq
    obtain ⟨hk, hc⟩ := heq
    subst hk
    subst hc
    split
    · rename_i c62 hcm2
      rw [hcm] at hcm2
      simp at hcm2
    · rename_i hcm2
      simp only [hbr2]

theorem parsePairsBody_cons (cs : List Char) (kv : String × String)
    (c5 c6 : List Char) (ps2 : List (String × String)) (c7 : List Char)
    (hbr : dropLit [rbrace] cs = none)
    (hop : parseOnePair cs = some (kv, c5))
    (hcm : dropLit [',', ' '] c5 = some c6)
    (hrec : parsePairsBody c6 = some (ps2, c7)) :
    parsePairsBody cs = some (kv :: ps2, c7) := by
  rw [parsePairsBody.eq_def]
  simp only [hbr]
  split
  · rename_i heq
    rw [hop] at heq
    simp at heq
  · rename_i kv2 c52 heq
    rw [hop] at heq
    simp only [Option.some.injEq, Prod.mk.injEq] at heq
    obtain ⟨hk, hc⟩ := heq
    subst hk
    subst hc
    split
    · rename_i c62 hcm2
      rw [hcm] at hcm2
      simp only [Option.some.injEq] at hcm2
      subst hcm2
      simp only [hrec]
    · rename_i hcm2
      rw [hcm] at hcm2
      simp at hcm2

theorem parsePairsBody_dump (ps : List (String × String)) : ∀ rest,
    parsePairsBody (dumpPairsBody ps ++ rbrace :: rest) = some (ps, rest) := by
  induction ps with
  | nil =>
    intro rest
    rw [show dumpPairsBody [] = ([] : List Char) from rfl, List.nil_append]
    exact parsePairsBody_rbrace rest
  | cons kv tl ih =>
    obtain ⟨k, v⟩ := kv
    cases tl with
    | nil =>
      intro rest
      have hshape : dumpPairsBody [(k, v)] ++ rbrace :: rest
          = dumpStringLit k ++ ':' :: ' '
            :: (dumpStringLit v ++ rbrace :: rest) := by
        simp [dumpPairsBody]
      rw [hshape]
      have hbr : dropLit [rbrace] (dumpStringLit k ++ ':' :: ' '
          :: (dumpStringLit v ++ rbrace :: rest)) = none := by
        rw [dumpStringLit_append]
        simp [dropLit, List.isPrefixOf, rbrace]
      exact parsePairsBody_last _ _ _ _ hbr
        (parseOnePair_dump k v (rbrace :: rest))
        (by simp [dropLit, List.isPrefixOf, rbrace])
        (by simp [dropLit, List.isPrefixOf])
    | cons p2 t =>
      intro rest
      have hshape : dumpPairsBody ((k, v) :: p2 :: t) ++ rbrace :: rest
          = dumpStringLit k ++ ':' :: ' ' :: (dumpStringLit v ++ ',' :: ' '
            :: (dumpPairsBody (p2 :: t) ++ rbrace :: rest)) := by
        simp [dumpPairsBody]
      rw [hshape]
      have hbr : dropLit [rbrace] (dumpStringLit k ++ ':' :: ' '
          :: (dumpStringLit v ++ ',' :: ' '
            :: (dumpPairsBody (p2 :: t) ++ rbrace :: rest))) = none := by
        rw [dumpStringLit_append]
        simp [dropLit, List.isPrefixOf, rbrace]
      exact parsePairsBody_cons _ _ _ _ _ _ hbr
        (parseOnePair_dump k v
          (',' :: ' ' :: (dumpPairsBody (p2 :: t) ++ rbrace :: rest)))
        (by simp [dropLit, List.isPrefixOf]) (ih rest)

theorem tlUrlP : ("\"url\": \"").toList
    = ['"', 'u', 'r', 'l', '"', ':', ' ', '"'] := rfl

theorem tlUrlD : ("\"url\": ").toList
    = ['"', 'u', 'r', 'l', '"', ':', ' '] := rfl

theorem tlMethodP : (", \"method\": \"").toList
    = [',', ' ', '"', 'm', 'e', 't', 'h', 'o', 'd', '"', ':', ' ', '"'] := rfl

theorem tlMethodD : (", \"method\": ").toList
    = [',', ' ', '"', 'm', 'e', 't', 'h', 'o', 'd', '"', ':', ' '] := rfl

theorem tlHeaders : (", \"headers\": ").toList
    = [',', ' ', '"', 'h', 'e', 'a', 'd', 'e', 'r', 's', '"', ':', ' '] := rfl

theorem tlParams : (", \"params\": ").toList
    = [',', ' ', '"', 'p', 'a', 'r', 'a', 'm', 's', '"', ':', ' '] := rfl

theorem tlBody : (", \"body\": ").toList
    = [',', ' ', '"', 'b', 'o', 'd', 'y', '"', ':', ' '] := rfl

theorem tlNull : ("null").toList = ['n', 'u', 'l', 'l'] := rfl

theorem dropLit_null_quote (x : List Char) :
    dropLit ['n', 'u', 'l', 'l', rbrace] ('"' :: x) = none := rfl

theorem parseReq_dump (r : CapturedRequest) (rest : List Char) :
    parseReq (dumpReq r ++ rest) = some (r, rest) := by
  obtain ⟨url, mth, hs, qs, body⟩ := r
  cases body with
  | none =>
    simp only [dumpReq, dumpStringLit, dumpPairs, parseReq, tlUrlP, tlUrlD,
      tlMethodP, tlMethodD, tlHeaders, tlParams, tlBody, tlNull,
      List.append_assoc, List.cons_append, List.nil_append, dropLit_cons,
      dropLit_nil, parseStrChars_escapeList, parsePairsBody_dump,
      asStringToList]
  | some b =>
    simp only [dumpReq, dumpStringLit, dumpPairs, parseReq, tlUrlP, tlUrlD,
      tlMethodP, tlMethodD, tlHeaders, tlParams, tlBody, tlNull,
      List.append_assoc, List.cons_append, List.nil_append, dropLit_cons,
      dropLit_nil, parseStrChars_escapeList, parsePairsBody_dump,
      dropLit_null_quote, asStringToList]

theorem dropLit_rb_dumpReq (r : CapturedRequest) (x : List Char) :
    dropLit [']'] (dumpReq r ++ x) = none := by
  simp [dumpReq, dropLit, List.isPrefixOf, lbrace]

theorem parseLogBody_rb (x : List Char) :
    parseLogBody (']' :: x) = some ([], x) := by
  rw [parseLogBody.eq_def]
  simp only [dropLit_cons, dropLit_nil]

theorem parseLogBody_last (cs : List Char) (r : CapturedRequest)
    (c1 c2 : List Char)
    (hbr : dropLit [']'] cs = none)
    (hp : parseReq cs = some (r, c1))
    (hcm : dropLit [',', ' '] c1 = none)
    (hbr2 : dropLit [']'] c1 = some c2) :
    parseLogBody cs = some ([r], c2) := by
  rw [parseLogBody.eq_def]
  simp only [hbr]
  split
  · rename_i heq
    rw [hp] at heq
    simp at heq
  · rename_i r2 c12 heq
    rw [hp] at heq
    simp only [Option.some.injEq, Prod.mk.injEq] at heq
    obtain ⟨h1, h2⟩ := heq
    subst h1
    subst h2
    split
    · rename_i c22 hcm2
      rw [hcm] at hcm2
      simp at hcm2
    · rename_i hcm2
      simp only [hbr2]

theorem parseLogBody_cons (cs : List Char) (r : CapturedRequest)
    (c1 c2 : List Char) (rs2 : List CapturedRequest) (c3 : List Char)
    (hbr : dropLit [']'] cs = none)
    (hp : parseReq cs = some (r, c1))
    (hcm : dropLit [',', ' '] c1 = some c2)
    (hrec : parseLogBody c2 = some (rs2, c3)) :
    parseLogBody cs = some (r :: rs2, c3) := by
  rw [parseLogBody.eq_def]
  simp only [hbr]
  split
  · rename_i heq
    rw [hp] at heq
    simp at heq
  · rename_i r2 c12 heq
    rw [hp] at heq
    simp only [Option.some.injEq, Prod.mk.injEq] at heq
    obtain ⟨h1, h2⟩ := heq
    subst h1
    subst h2
    split
    · rename_i c22 hcm2
      rw [hcm] at hcm2
      simp only [Option.some.injEq] at hcm2
      subst hcm2
      simp only [hrec]
    · rename_i hcm2
      rw [hcm] at hcm2
      simp at hcm2

theorem parseLogBody_dump (rs : List CapturedRequest) : ∀ rest,
    parseLogBody (dumpLogBody rs ++ ']' :: rest) = some (rs, rest) := by
  induction rs with
  | nil =>
    intro rest
    rw [show dumpLogBody [] = ([] : List Char) from rfl, List.nil_append]
    exact parseLogBody_rb rest
  | cons r tl ih =>
    cases tl with
    | nil =>
      intro rest
      have hshape : dumpLogBody [r] ++ ']' :: rest = dumpReq r ++ ']' :: rest := by
        simp [dumpLogBody]
      rw [hshape]
      exact parseLogBody_last _ _ _ _ (dropLit_rb_dumpReq r _)
        (parseReq_dump r (']' :: rest))
        (by simp [dropLit, List.isPrefixOf])
        (by simp [dropLit, List.isPrefixOf])
    | cons r2 t =>
      intro rest
      have hshape : dumpLogBody (r :: r2 :: t) ++ ']' :: rest
          = dumpReq r ++ ',' :: ' ' :: (dumpLogBody (r2 :: t) ++ ']' :: rest) := by
        simp [dumpLogBody]
      rw [hshape]
      exact parseLogBody_cons _ _ _ _ _ _ (dropLit_rb_dumpReq r _)
        (parseReq_dump r _) (by simp [dropLit, List.isPrefixOf]) (ih rest)

/-! ## Dictionary lookup lemmas -/

theorem setKey_lookup_same (d : List (String × Json)) (k : String) (v : Json) :
    (setKey d k v).lookup k = some v := by
  induction d with
  | nil => simp [setKey, List.lookup]
  | cons kv t ih =>
    obtain ⟨k1, v1⟩ := kv
    by_cases h : k1 = k
    · subst h
      simp [setKey, List.lookup]
    · have hb : (k == k1) = false := beq_eq_false_iff_ne.mpr (Ne.symm h)
      simp [setKey, h, List.lookup, hb, ih]

theorem setKey_lookup_other (d : List (String × Json)) (k k2 : String)
    (v : Json) (h : k2 ≠ k) : (setKey d k v).lookup k2 = d.lookup k2 := by
  induction d with
  | nil =>
    have hb : (k2 == k) = false := beq_eq_false_iff_ne.mpr h
    simp [setKey, List.lookup, hb]
  | cons kv t ih =>
    obtain ⟨k1, v1⟩ := kv
    by_cases h1 : k1 = k
    · subst h1
      have hb : (k2 == k1) = false := beq_eq_false_iff_ne.mpr h
      simp [setKey, List.lookup, hb]
    · simp [setKey, h1, List.lookup, ih]

theorem keys_lookup_none (ov : List (String × Json)) (k : String)
    (h : k ∉ ov.map Prod.fst) : ov.lookup k = none := by
  induction ov with
  | nil => rfl
  | cons kv t ih =>
    obtain ⟨k1, v1⟩ := kv
    simp only [List.map_cons, List.mem_cons] at h
    push_neg at h
    have hb : (k == k1) = false := beq_eq_false_iff_ne.mpr h.1
    simp [List.lookup, hb, ih h.2]

theorem dictUpdate_lookup (ov : List (String × Json)) :
    ∀ (fs : List (String × Json)) (k : String), (ov.map Prod.fst).Nodup →
      (dictUpdate fs ov).lookup k = ((ov.lookup k).or (fs.lookup k)) := by
  induction ov with
  | nil =>
    intro fs k _
    simp [dictUpdate, List.lookup]
  | cons kv t ih =>
    obtain ⟨k1, v1⟩ := kv
    intro fs k hnd
    simp only [List.map_cons, List.nodup_cons] at hnd
    obtain ⟨hk1, hnd2⟩ := hnd
    have step : dictUpdate fs ((k1, v1) :: t) = dictUpdate (setKey fs k1 v1) t := rfl
    rw [step, ih (setKey fs k1 v1) k hnd2]
    by_cases h : k = k1
    · subst h
      rw [keys_lookup_none t k hk1]
      simp [List.lookup, setKey_lookup_same]
    · rw [setKey_lookup_other fs k1 k v1 h]
      have hb : (k == k1) = false := beq_eq_false_iff_ne.mpr h
      simp [List.lookup, hb]

/-! ## Extractor invariants -/

/-- Occurrences of the identity key among a list of products. -/
def keyCount (l : List Product) (key : String × ℚ) : Nat :=
  l.countP (fun p => decide (item_key p = key))

theorem item_key_inj (p q : Product) (h : item_key p = item_key q) : p = q := by
  cases p
  cases q
  simp [item_key] at h
  simp [h.1, h.2]

theorem catProducts_cons (k : String) (ps : List Product) (rest : Catalog) :
    catProducts ((k, ps) :: rest) = ps ++ catProducts rest := by
  simp [catProducts]

theorem catProducts_add_perm (cat : Catalog) (kw : String) (p : Product) :
    (catProducts (addToCatalog cat kw p)).Perm (p :: catProducts cat) := by
  induction cat with
  | nil => simp [addToCatalog, catProducts]
  | cons e rest ih =>
    obtain ⟨k, ps⟩ := e
    by_cases h : k = kw
    · rw [show addToCatalog ((k, ps) :: rest) kw p = (k, ps ++ [p]) :: rest
        from by simp [addToCatalog, h]]
      rw [catProducts_cons, catProducts_cons]
      rw [List.append_assoc, List.singleton_append]
      exact List.perm_middle
    · rw [show addToCatalog ((k, ps) :: rest) kw p
          = (k, ps) :: addToCatalog rest kw p from by simp [addToCatalog, h]]
      rw [catProducts_cons, catProducts_cons]
      exact (List.Perm.append_left ps ih).trans List.perm_middle

/-- The loop invariant of `extract_all_products`: every identity key occurs
at most once in the whole catalog, and the deduplication set holds exactly
the keys of the emitted records. -/
def ExtInv (st : List (String × ℚ) × Catalog) : Prop :=
  (∀ key, keyCount (catProducts st.2) key ≤ 1) ∧
  (∀ key, key ∈ st.1 ↔ ∃ p ∈ catProducts st.2, item_key p = key)

theorem ExtInv_init : ExtInv ([], []) := by
  constructor
  · intro key
    simp [keyCount, catProducts]
  · intro key
    simp [catProducts]

theorem ExtInv_step (st : List (String × ℚ) × Catalog) (kw : String)
    (p : Product) (hinv : ExtInv st) (hk : item_key p ∉ st.1) :
    ExtInv (item_key p :: st.1, addToCatalog st.2 kw p) := by
  obtain ⟨hcount, hmem⟩ := hinv
  have hperm := catProducts_add_perm st.2 kw p
  constructor
  · intro key
    have hc := hperm.countP_eq (fun q => decide (item_key q = key))
    simp only [keyCount]
    rw [hc, List.countP_cons]
    by_cases hkey : item_key p = key
    · have hzero : (catProducts st.2).countP
          (fun q => decide (item_key q = key)) = 0 := by
        rw [List.countP_eq_zero]
        intro q hq hqk
        simp only [decide_eq_true_eq] at hqk
        exact hk ((hmem (item_key p)).mpr ⟨q, hq, by rw [hqk, hkey]⟩)
      simp [hzero, hkey]
    · have hle := hcount key
      simp only [keyCount] at hle
      simpa [hkey] using hle
  · intro key
    constructor
    · intro hin
      rcases List.mem_cons.mp hin with heq | hold
      · exact ⟨p, hperm.mem_iff.mpr (List.mem_cons_self p _), heq.symm⟩
      · obtain ⟨q, hq, hqk⟩ := (hmem key).mp hold
        exact ⟨q, hperm.mem_iff.mpr (List.mem_cons_of_mem p hq), hqk⟩
    · rintro ⟨q, hq, hqk⟩
      rcases List.mem_cons.mp (hperm.mem_iff.mp hq) with heq | hold
      · subst heq
        subst hqk
        exact List.mem_cons_self _ _
      · exact List.mem_cons_of_mem _ ((hmem key).mpr ⟨q, hold, hqk⟩)

theorem processItems_ok (kw : String) :
    ∀ (items : List Json) (st st' : List (String × ℚ) × Catalog),
      processItems kw items st = .ok st' → ExtInv st →
      ExtInv st' ∧ (∀ key, key ∈ st.1 → key ∈ st'.1) ∧
      (∀ it ∈ items, ∀ p, itemToProduct it = .ok p → item_key p ∈ st'.1) := by
  intro items
  induction items with
  | nil =>
    intro st st' h hinv
    simp only [processItems, Except.ok.injEq] at h
    subst h
    exact ⟨hinv, fun key hk => hk, by simp⟩
  | cons it rest ih =>
    intro st st' h hinv
    simp only [processItems] at h
    cases hit : itemToProduct it with
    | error e =>
      rw [hit] at h
      simp at h
    | ok p =>
      simp only [hit] at h
      by_cases hk : item_key p ∈ st.1
      · rw [if_pos hk] at h
        obtain ⟨hinv2, hmono, hmem⟩ := ih st st' h hinv
        refine ⟨hinv2, hmono, ?_⟩
        intro it2 hit2 p2 hp2
        rcases List.mem_cons.mp hit2 with heq | hmem2
        · subst heq
          have : p2 = p := by
            rw [hit] at hp2
            exact (Except.ok.injEq _ _).mp hp2.symm
          subst this
          exact hmono _ hk
        · exact hmem it2 hmem2 p2 hp2
      · rw [if_neg hk] at h
        have hinv2 := ExtInv_step st kw p hinv hk
        obtain ⟨hinv3, hmono, hmem⟩ := ih _ st' h hinv2
        refine ⟨hinv3, ?_, ?_⟩
        · intro key hkey
          exact hmono key (List.mem_cons_of_mem _ hkey)
        · intro it2 hit2 p2 hp2
          rcases List.mem_cons.mp hit2 with heq | hmem2
          · subst heq
            have : p2 = p := by
              rw [hit] at hp2
              exact (Except.ok.injEq _ _).mp hp2.symm
            subst this
            exact hmono _ (List.mem_cons_self _ _)
          · exact hmem it2 hmem2 p2 hp2

theorem extractGo_ok :
    ∀ (files : List (String × Json)) (st : List (String × ℚ) × Catalog)
      (cat : Catalog), extractGo files st = .ok cat → ExtInv st →
      ∃ ex, ExtInv (ex, cat) ∧ (∀ key, key ∈ st.1 → key ∈ ex) ∧
        ∀ kw j, (kw, j) ∈ files → ∀ xs, pathOnSaleList j = some (.arr xs) →
          ∀ it ∈ xs, ∀ p, itemToProduct it = .ok p → item_key p ∈ ex := by
  intro files
  induction files with
  | nil =>
    intro st cat h hinv
    simp only [extractGo, Except.ok.injEq] at h
    subst h
    exact ⟨st.1, hinv, fun key hk => hk, by simp⟩
  | cons f rest ih =>
    obtain ⟨kw0, j0⟩ := f
    intro st cat h hinv
    simp only [extractGo] at h
    cases hpath : pathOnSaleList j0 with
    | none =>
      rw [hpath] at h
      obtain ⟨ex, hinv2, hmono, hfiles⟩ := ih st cat h hinv
      refine ⟨ex, hinv2, hmono, ?_⟩
      intro kw j hj xs hxs it hit p hp
      rcases List.mem_cons.mp hj with heq | hmem
      · obtain ⟨h1, h2⟩ := Prod.mk.injEq .. |>.mp heq
        subst h1
        subst h2
        rw [hpath] at hxs
        simp at hxs
      · exact hfiles kw j hmem xs hxs it hit p hp
    | some v =>
      simp only [hpath] at h
      cases v with
      | arr items =>
        cases hproc : processItems kw0 items st with
        | error e =>
          simp only [hproc] at h
          simp at h
        | ok st2 =>
          simp only [hproc] at h
          obtain ⟨hinv2, hmono2, hmem2⟩ :=
            processItems_ok kw0 items st st2 hproc hinv
          obtain ⟨ex, hinv3, hmono, hfiles⟩ := ih st2 cat h hinv2
          refine ⟨ex, hinv3, fun key hk => hmono key (hmono2 key hk), ?_⟩
          intro kw j hj xs hxs it hit p hp
          rcases List.mem_cons.mp hj with heq | hmem
          · obtain ⟨h1, h2⟩ := Prod.mk.injEq .. |>.mp heq
            subst h1
            subst h2
            rw [hpath] at hxs
            simp only [Option.some.injEq, Json.arr.injEq] at hxs
            subst hxs
            exact hmono _ (hmem2 it hit p hp)
          · exact hfiles kw j hmem xs hxs it hit p hp
      | null => simp at h
      | bool b => simp at h
      | num q => simp at h
      | str s => simp at h
      | obj fs => simp at h

theorem itemToProduct_isErr (it : Json)
    (h : it.getKey "goodsName" = none ∨ it.getKey "memberPrice" = none) :
    ∃ e, itemToProduct it = .error e := by
  rcases h with h | h
  · exact ⟨"KeyError: goodsName", by simp [itemToProduct, h]⟩
  · cases hg : it.getKey "goodsName" with
    | none => exact ⟨"KeyError: goodsName", by simp [itemToProduct, hg]⟩
    | some g =>
      exact ⟨"KeyError: memberPrice", by simp [itemToProduct, hg, h]⟩

theorem processItems_bad (kw : String) (it : Json) (e0 : String)
    (hbad : itemToProduct it = .error e0) :
    ∀ (items : List Json), it ∈ items →
      ∀ st, ∃ e, processItems kw items st = .error e := by
  intro items
  induction items with
  | nil =>
    intro h
    cases h
  | cons it2 rest ih =>
    intro hit st
    rcases List.mem_cons.mp hit with heq | hmem
    · subst heq
      exact ⟨e0, by simp [processItems, hbad]⟩
    · cases hres : itemToProduct it2 with
      | error e => exact ⟨e, by simp [processItems, hres]⟩
      | ok p =>
        by_cases hk : item_key p ∈ st.1
        · obtain ⟨e, he⟩ := ih hmem st
          exact ⟨e, by simp [processItems, hres, if_pos hk, he]⟩
        · obtain ⟨e, he⟩ := ih hmem
            (item_key p :: st.1, addToCatalog st.2 kw p)
          exact ⟨e, by simp [processItems, hres, if_neg hk, he]⟩

theorem extractGo_bad :
    ∀ (files : List (String × Json)) (st : List (String × ℚ) × Catalog)
      (kw : String) (j : Json), (kw, j) ∈ files →
      ∀ (xs : List Json), pathOnSaleList j = some (.arr xs) →
      ∀ it ∈ xs,
        (it.getKey "goodsName" = none ∨ it.getKey "memberPrice" = none) →
        ∃ e, extractGo files st = .error e := by
  intro files
  induction files with
  | nil =>
    intro st kw j h
    cases h
  | cons f rest ih =>
    obtain ⟨kw0, j0⟩ := f
    intro st kw j hj xs hxs it hit hbad
    obtain ⟨e0, he0⟩ := itemToProduct_isErr it hbad
    rcases List.mem_cons.mp hj with heq | hmem
    · obtain ⟨h1, h2⟩ := Prod.mk.injEq .. |>.mp heq
      subst h1
      subst h2
      obtain ⟨e, he⟩ := processItems_bad kw it e0 he0 xs hit st
      exact ⟨e, by simp [extractGo, hxs, he]⟩
    · cases hpath : pathOnSaleList j0 with
      | none =>
        obtain ⟨e, he⟩ := ih st kw j hmem xs hxs it hit hbad
        exact ⟨e, by simp [extractGo, hpath, he]⟩
      | some v =>
        cases v with
        | arr items =>
          cases hproc : processItems kw0 items st with
          | error e => exact ⟨e, by simp [extractGo, hpath, hproc]⟩
          | ok st2 =>
            obtain ⟨e, he⟩ := ih st2 kw j hmem xs hxs it hit hbad
            exact ⟨e, by simp [extractGo, hpath, hproc, he]⟩
        | null =>
          exact ⟨"TypeError: onSaleList is not a list",
            by simp [extractGo, hpath]⟩
        | bool b =>
          exact ⟨"TypeError: onSaleList is not a list",
            by simp [extractGo, hpath]⟩
        | num q =>
          exact ⟨"TypeError: onSaleList is not a list",
            by simp [extractGo, hpath]⟩
        | str s2 =>
          exact ⟨"TypeError: onSaleList is not a list",
            by simp [extractGo, hpath]⟩
        | obj fs =>
          exact ⟨"TypeError: onSaleList is not a list",
            by simp [extractGo, hpath]⟩

theorem countP_le_flatten (pred : Product → Bool) (l : List (List Product))
    (ps : List Product) (h : ps ∈ l) :
    ps.countP pred ≤ (l.flatten).countP pred := by
  induction l with
  | nil => cases h
  | cons q rest ih =>
    rcases List.mem_cons.mp h with heq | hmem
    · subst heq
      simp [List.countP_append]
    · simp only [List.flatten_cons, List.countP_append]
      have := ih hmem
      omega

theorem catProducts_mem (cat : Catalog) (p : Product)
    (h : p ∈ catProducts cat) : ∃ kw ps, (kw, ps) ∈ cat ∧ p ∈ ps := by
  simp only [catProducts, List.mem_flatten] at h
  obtain ⟨l, hl, hp⟩ := h
  simp only [List.mem_map] at hl
  obtain ⟨⟨kw, ps⟩, hmem, heq⟩ := hl
  have heq2 : ps = l := heq
  subst heq2
  exact ⟨kw, ps, hmem, hp⟩

/-! ## Replay batch characterisation -/

/-- What the `if result:` test keeps of one replay's outcome: a null result
or a falsy JSON value (empty object or array, empty string, zero, false)
is dropped. -/
def keptResult (res : Option Json) : Option Json :=
  match res with
  | some j => if j.truthy then some j else none
  | none => none

theorem replay_inner_foldl (http : HttpOracle)
    (request : List (String × Json)) :
    ∀ (vars : List (List (String × Json))) (acc : List Json),
      vars.foldl
        (fun results params =>
          match replay_request http request (some params) with
          | some r => if r.truthy then results ++ [r] else results
          | none => results) acc
      = acc ++ (vars.map
          (fun ps => replay_request http request (some ps))).filterMap
            keptResult := by
  intro vars
  induction vars with
  | nil =>
    intro acc
    simp
  | cons v rest ih =>
    intro acc
    simp only [List.foldl_cons, List.map_cons, List.filterMap_cons]
    cases hr : replay_request http request (some v) with
    | none => simp [hr, keptResult, ih]
    | some r =>
      by_cases ht : r.truthy
      · simp [hr, keptResult, ht, ih]
      · simp [hr, keptResult, ht, ih]

theorem replay_outer_foldl (http : HttpOracle)
    (vars : List (List (String × Json))) :
    ∀ (captured : List (List (String × Json))) (acc : List Json),
      captured.foldl
        (fun results request =>
          vars.foldl
            (fun results params =>
              match replay_request http request (some params) with
              | some r => if r.truthy then results ++ [r] else results
              | none => results) results) acc
      = acc ++ (captured.flatMap (fun r => vars.map
          (fun ps => replay_request http r (some ps)))).filterMap keptResult := by
  intro captured
  induction captured with
  | nil =>
    intro acc
    simp
  | cons r rest ih =>
    intro acc
    simp only [List.foldl_cons, List.flatMap_cons, List.filterMap_append]
    rw [replay_inner_foldl, ih, List.append_assoc]

/-! ## Capture hook characterisation -/

theorem capture_request_error_characterised (st : List CapturedRequest)
    (flow : MitmRequest) :
    (∃ e, RequestCapture.request st flow = .error e) ↔
      (strContainsSub flow.pretty_url "searchGoods" = true ∧
        ∃ bs, flow.content = some bs ∧ bs ≠ [] ∧ utf8Decode bs = none) := by
  simp only [RequestCapture.request]
  by_cases hurl : strContainsSub flow.pretty_url "searchGoods"
  · rw [if_pos hurl]
    cases hc : flow.content with
    | none => simp [hurl, hc]
    | some bs =>
      cases bs with
      | nil => simp [hurl, hc]
      | cons b bt =>
        cases hdec : utf8Decode (b :: bt) with
        | none => simp [hurl, hc, hdec]
        | some s => simp [hurl, hc, hdec]
  · rw [if_neg hurl]
    simp [hurl]

/-! ## Concrete values used by scenarios, witnesses and counterexamples -/

/-- The sale item `{"goodsName": "A", "memberPrice": 500}`. -/
def itemA : Json :=
  Json.obj [("goodsName", Json.str "A"), ("memberPrice", Json.num 500)]

/-- A result file whose `onSaleList` holds `itemA` once. -/
def fileOneA : Json :=
  Json.obj [("data", Json.obj [("b2c", Json.obj
    [("onSaleList", Json.arr [itemA])])])]

/-- A result file whose `onSaleList` holds `itemA` twice. -/
def fileTwoA : Json :=
  Json.obj [("data", Json.obj [("b2c", Json.obj
    [("onSaleList", Json.arr [itemA, itemA])])])]

/-- A sale item lacking the `memberPrice` field. -/
def itemBad : Json :=
  Json.obj [("goodsName", Json.str "A")]

/-- A result file containing `itemBad`. -/
def fileBad : Json :=
  Json.obj [("data", Json.obj [("b2c", Json.obj
    [("onSaleList", Json.arr [itemBad])])])]

/-- A minimal captured request record with the three required fields. -/
def req0 : List (String × Json) :=
  [("method", Json.str "GET"),
   ("url", Json.str "https://api.example.com/searchGoods"),
   ("headers", Json.obj [])]

/-- A transport whose every response is `200 OK` with body `{}` — a valid,
non-null, but falsy JSON value. -/
def httpEmptyObj : HttpOracle := fun _ => some ⟨200, some (Json.obj [])⟩

/-! ## Claims -/

/-- C1: for every baseline captured request whose body is a JSON object and
every non-baseline keyword, the keyword driver derives a request whose
body's `keywords` field equals that keyword and whose other body fields
equal the baseline body's fields; the baseline keyword `"苹果"` is never
replayed; with baseline body `{"keywords": "苹果", "page": 1}` and keyword
list `["苹果", "香蕉"]`, exactly one replay is issued, for `"香蕉"`, with
body `{"keywords": "香蕉", "page": 1}`. -/
theorem keyword_driver_derivation :
    (∀ (baseline : List (String × Json)) (keywords : List String)
      (kw : String) (body : List (String × Json)),
      (kw, body) ∈ derivedRequests baseline keywords →
        kw ≠ "苹果" ∧ body.lookup "keywords" = some (.str kw) ∧
        ∀ k, k ≠ "keywords" → body.lookup k = baseline.lookup k) ∧
    (∀ (baseline : List (String × Json)) (keywords : List String)
      (kw : String), kw ∈ keywords → kw ≠ "苹果" →
      (kw, setKey baseline "keywords" (.str kw))
        ∈ derivedRequests baseline keywords) ∧
    derivedRequests [("keywords", .str "苹果"), ("page", .num 1)]
      ["苹果", "香蕉"]
      = [("香蕉", [("keywords", .str "香蕉"), ("page", .num 1)])] := by
  refine ⟨?_, ?_, ?_⟩
  · intro baseline keywords kw body hm
    simp only [derivedRequests, List.mem_map] at hm
    obtain ⟨kw2, hkw2, heq⟩ := hm
    obtain ⟨h1, h2⟩ := Prod.mk.injEq .. |>.mp heq
    subst h1
    subst h2
    have hfil := List.mem_filter.mp hkw2
    refine ⟨by simpa using hfil.2, setKey_lookup_same baseline "keywords" _,
      ?_⟩
    intro k hk
    exact setKey_lookup_other baseline "keywords" k _ hk
  · intro baseline keywords kw hkw hne
    simp only [derivedRequests, List.mem_map]
    exact ⟨kw, List.mem_filter.mpr ⟨hkw, by simpa using hne⟩, rfl⟩
  · rfl

/-- Witness for C1 at the spec's scenario. -/
theorem keyword_driver_derivation_witness :
    ("香蕉", setKey [("keywords", Json.str "苹果"), ("page", Json.num 1)]
        "keywords" (Json.str "香蕉"))
      ∈ derivedRequests [("keywords", Json.str "苹果"), ("page", Json.num 1)]
        ["苹果", "香蕉"] ∧
    ("香蕉" : String) ≠ "苹果" := by
  refine ⟨keyword_driver_derivation.2.1 _ _ "香蕉" (by simp) (by decide), ?_⟩
  have h := keyword_driver_derivation.1
    [("keywords", Json.str "苹果"), ("page", Json.num 1)] ["苹果", "香蕉"]
    "香蕉" (setKey [("keywords", Json.str "苹果"), ("page", Json.num 1)]
      "keywords" (Json.str "香蕉"))
    (keyword_driver_derivation.2.1 _ _ "香蕉" (by simp) (by decide))
  exact h.1

/-- C2, as stated, is false: the deduplication set is shared across
keywords, so a (name, price) pair that already produced a record under an
earlier keyword yields zero records — not exactly one — for a later
keyword whose source items contain it twice. Concretely, `"k1"` emits
("A", 5) and `"k2"`, whose list holds the duplicate pair twice, gets no
entry at all in the aggregated output. -/
theorem extractor_dedup_within_keyword_cex :
    pathOnSaleList fileTwoA = some (Json.arr [itemA, itemA]) ∧
    itemToProduct itemA = .ok ⟨"A", 5⟩ ∧
    extract_all_products [("k1", fileOneA), ("k2", fileTwoA)]
      = .ok [("k1", [⟨"A", 5⟩])] := by
  have h5 : (500 : ℚ) / 100 = 5 := by norm_num
  refine ⟨rfl, ?_, ?_⟩
  · simp [itemToProduct, itemA, Json.getKey, List.lookup, h5]
  · simp [extract_all_products, extractGo, pathOnSaleList, processItems,
      itemToProduct, itemA, fileOneA, fileTwoA, Json.getKey, List.lookup,
      addToCatalog, item_key, h5]

/-- C2 amended: within each keyword's output sequence no two product
records share the identity key — each keyword's list holds a key at most
once. (The stronger reading "a pair occurring among one keyword's source
items appears exactly once in that keyword's output" fails when the key
was already emitted under an earlier keyword, because the deduplication
set is shared across the whole run.) -/
theorem extractor_dedup_within_keyword
    (files : List (String × Json)) (cat : Catalog)
    (h : extract_all_products files = .ok cat) :
    ∀ (kw : String) (ps : List Product), (kw, ps) ∈ cat →
      ∀ key, keyCount ps key ≤ 1 := by
  obtain ⟨ex, hinv, hmono, hfiles⟩ :=
    extractGo_ok files ([], []) cat h ExtInv_init
  intro kw ps hmem key
  have hglobal : keyCount (catProducts cat) key ≤ 1 := hinv.1 key
  have hle : keyCount ps key ≤ keyCount (catProducts cat) key := by
    simp only [keyCount, catProducts]
    exact countP_le_flatten _ (cat.map Prod.snd) ps
      (List.mem_map.mpr ⟨(kw, ps), hmem, rfl⟩)
  omega

/-- Witness for the amended C2. -/
theorem extractor_dedup_within_keyword_witness :
    keyCount [⟨"A", (5 : ℚ)⟩] ("A", 5) ≤ 1 := by
  have h5 : (500 : ℚ) / 100 = 5 := by norm_num
  exact extractor_dedup_within_keyword [("k1", fileOneA), ("k2", fileTwoA)]
    [("k1", [⟨"A", 5⟩])]
    (by simp [extract_all_products, extractGo, pathOnSaleList, processItems,
      itemToProduct, itemA, fileOneA, fileTwoA, Json.getKey, List.lookup,
      addToCatalog, item_key, h5])
    "k1" [⟨"A", 5⟩] (by simp) ("A", 5)

/-- C3, as stated, is false in one point: the batch keeps the results the
Python truthiness test `if result:` accepts, which drops not only null
results but also non-null falsy JSON values. A replay that returns the
valid JSON object `{}` is discarded from the batch's output. -/
theorem replay_with_modifications_cex :
    replay_request httpEmptyObj req0 (some []) = some (Json.obj []) ∧
    replay_with_modifications httpEmptyObj [req0] [[]] = [] := by
  refine ⟨rfl, rfl⟩

/-- C3 amended: `replay_with_modifications` issues exactly one replay per
(captured request, parameter variation) pair, requests outermost and in
order, and returns the flat ordered sequence of the truthy replay
results; a null (failed) replay — and likewise a falsy JSON result — is
skipped without terminating the batch or discarding other results. -/
theorem replay_with_modifications_eq (http : HttpOracle)
    (captured param_variations : List (List (String × Json))) :
    replay_with_modifications http captured param_variations
      = ((captured.flatMap (fun r => param_variations.map
          (fun ps => replay_request http r (some ps)))).filterMap
            keptResult) := by
  cases captured with
  | nil => rfl
  | cons c rest =>
    have hne : ((c :: rest).isEmpty) = false := rfl
    simp only [replay_with_modifications, hne, Bool.false_eq_true, if_false]
    rw [replay_outer_foldl]
    simp

/-- C4: for every result file whose JSON contains the path
`data.b2c.onSaleList` and every item on that list with fields `goodsName`
and `memberPrice`, a successful extraction's catalog contains a product
record whose item equals `goodsName` and whose price equals `memberPrice`
divided by 100; the file
`{"data":{"b2c":{"onSaleList":[{"goodsName":"A","memberPrice":500}]}}}`
yields the extracted product `{"item": "A", "price": 5.0}`. -/
theorem extractor_maps_fields :
    (∀ (files : List (String × Json)) (cat : Catalog) (kw : String)
      (j : Json) (xs : List Json) (it : Json) (name : String) (price : ℚ),
      extract_all_products files = .ok cat → (kw, j) ∈ files →
      pathOnSaleList j = some (.arr xs) → it ∈ xs →
      it.getKey "goodsName" = some (.str name) →
      it.getKey "memberPrice" = some (.num price) →
      ∃ kw2 ps, (kw2, ps) ∈ cat ∧ (⟨name, price / 100⟩ : Product) ∈ ps) ∧
    extract_all_products [("苹果", fileOneA)] = .ok [("苹果", [⟨"A", 5⟩])] := by
  constructor
  · intro files cat kw j xs it name price h hj hxs hit hg hm
    obtain ⟨ex, hinv, hmono, hfiles⟩ :=
      extractGo_ok files ([], []) cat h ExtInv_init
    have hp : itemToProduct it = .ok ⟨name, price / 100⟩ := by
      simp [itemToProduct, hg, hm]
    have hkey := hfiles kw j hj xs hxs it hit ⟨name, price / 100⟩ hp
    obtain ⟨q, hq, hqk⟩ := (hinv.2 (item_key ⟨name, price / 100⟩)).mp hkey
    have hq2 : q = ⟨name, price / 100⟩ := item_key_inj q _ hqk
    rw [hq2] at hq
    exact catProducts_mem cat _ hq
  · have h5 : (500 : ℚ) / 100 = 5 := by norm_num
    simp [extract_all_products, extractGo, pathOnSaleList, processItems,
      itemToProduct, itemA, fileOneA, Json.getKey, List.lookup,
      addToCatalog, item_key, h5]

/-- Witness for C4 at the spec's scenario file. -/
theorem extractor_maps_fields_witness :
    ∃ kw2 ps, (kw2, ps) ∈ [("苹果", [(⟨"A", 5⟩ : Product)])] ∧
      (⟨"A", (500 : ℚ) / 100⟩ : Product) ∈ ps :=
  extractor_maps_fields.1 [("苹果", fileOneA)] [("苹果", [⟨"A", 5⟩])]
    "苹果" fileOneA [itemA] itemA "A" 500
    extractor_maps_fields.2 (by simp) rfl (by simp) rfl rfl

/-- C5, as stated, is false: `RequestCapture.request` contains no
exception handling, so a `UnicodeDecodeError` raised while decoding the
request body of a matching flow propagates out of the hook to the proxy
host. The byte `0xFF` is not valid UTF-8. -/
theorem capture_request_hook_cex :
    RequestCapture.request []
      ⟨"https://api.example.com/searchGoods", "POST", [], [], some [255]⟩
      = .error "UnicodeDecodeError" := by
  rfl

/-- C5 amended: the request hook raises if and only if the flow matches
the `"searchGoods"` URL filter and its non-empty body fails strict UTF-8
decoding; every other capture path appends the record (or skips the flow)
without raising. The hook itself catches nothing — only the response hook
has a `try`/`except`. -/
theorem capture_request_hook_error_iff (st : List CapturedRequest)
    (flow : MitmRequest) :
    (∃ e, RequestCapture.request st flow = .error e) ↔
      (strContainsSub flow.pretty_url "searchGoods" = true ∧
        ∃ bs, flow.content = some bs ∧ bs ≠ [] ∧ utf8Decode bs = none) :=
  capture_request_error_characterised st flow

/-- C6: when the captured record holds a `params` object, the issued
request's query parameters are the captured parameters updated by the
overrides, an override winning on any key collision; with no override
mapping the captured parameters pass through unchanged; and
`replay_request` passes exactly the merged mapping to the transport. -/
theorem replay_params_merge :
    (∀ fs : List (String × Json), buildParams (.obj fs) none = some fs) ∧
    (∀ (fs ov merged : List (String × Json)), (ov.map Prod.fst).Nodup →
      buildParams (.obj fs) (some ov) = some merged →
      ∀ k, merged.lookup k = ((ov.lookup k).or (fs.lookup k))) ∧
    (∀ (http : HttpOracle) (rd : List (String × Json))
      (mp : Option (List (String × Json))) (m u hd v : Json)
      (fs2 : List (String × Json)),
      rd.lookup "method" = some m → rd.lookup "url" = some u →
      rd.lookup "headers" = some hd → rd.lookup "params" = some v →
      buildParams v mp = some fs2 →
      replay_request http rd mp
        = respToResult (http ⟨m, u, hd, some fs2, bodyArg rd⟩)) := by
  refine ⟨?_, ?_, ?_⟩
  · intro fs
    cases fs with
    | nil => rfl
    | cons kv t => rfl
  · intro fs ov merged hnd hb k
    by_cases hoe : ov.isEmpty
    · have hov : ov = [] := by
        cases ov with
        | nil => rfl
        | cons x t => simp at hoe
      subst hov
      have hm : merged = fs := by
        cases fs with
        | nil =>
          simp [buildParams, Json.truthy] at hb
          first
          | exact hb
          | exact hb.symm
        | cons kv t =>
          simp [buildParams, Json.truthy] at hb
          first
          | exact hb
          | exact hb.symm
      subst hm
      simp [List.lookup]
    · have hne : ov.isEmpty = false := by
        cases h : ov.isEmpty
        · rfl
        · exact absurd h hoe
      have hm : merged = dictUpdate fs ov := by
        cases fs with
        | nil =>
          simp [buildParams, Json.truthy, hne] at hb
          first
          | exact hb
          | exact hb.symm
        | cons kv t =>
          simp [buildParams, Json.truthy, hne] at hb
          first
          | exact hb
          | exact hb.symm
      subst hm
      exact dictUpdate_lookup ov fs k hnd
  · intro http rd mp m u hd v fs2 hm hu hh hp hb
    simp [replay_request, hm, hu, hh, hp, hb]

/-- Witness for C6: captured `{"page": 1, "size": 10}` with override
`{"page": 2}` issues `{"page": 2, "size": 10}`; with no override the
captured mapping passes through. -/
theorem replay_params_merge_witness :
    buildParams (.obj [("page", Json.num 1), ("size", Json.num 10)]) none
      = some [("page", Json.num 1), ("size", Json.num 10)] ∧
    (dictUpdate [("page", Json.num 1), ("size", Json.num 10)]
        [("page", Json.num 2)]).lookup "page"
      = (([("page", Json.num 2)].lookup "page").or
          ([("page", Json.num 1), ("size", Json.num 10)].lookup "page")) := by
  constructor
  · exact replay_params_merge.1 [("page", Json.num 1), ("size", Json.num 10)]
  · exact replay_params_merge.2.1
      [("page", Json.num 1), ("size", Json.num 10)] [("page", Json.num 2)]
      (dictUpdate [("page", Json.num 1), ("size", Json.num 10)]
        [("page", Json.num 2)])
      (by simp) rfl "page"

/-- C7: if any item on a reachable `data.b2c.onSaleList` lacks `goodsName`
or `memberPrice`, the extraction run is fatal — the unhandled lookup
failure surfaces as the single top-level reported error and no aggregated
output is produced (`Except.error`, under which no output file is
written). -/
theorem extractor_missing_field_fatal (files : List (String × Json))
    (kw : String) (j : Json) (xs : List Json) (it : Json)
    (hj : (kw, j) ∈ files) (hxs : pathOnSaleList j = some (.arr xs))
    (hit : it ∈ xs)
    (hbad : it.getKey "goodsName" = none ∨ it.getKey "memberPrice" = none) :
    ∃ e, extract_all_products files = .error e :=
  extractGo_bad files ([], []) kw j hj xs hxs it hit hbad

/-- Witness for C7: a file whose item lacks `memberPrice` aborts the run. -/
theorem extractor_missing_field_fatal_witness :
    ∃ e, extract_all_products [("k", fileBad)] = .error e :=
  extractor_missing_field_fatal [("k", fileBad)] "k" fileBad [itemBad]
    itemBad (by simp) rfl (by simp) (Or.inr rfl)

/-- C8: a captured record missing any of `method`, `url` or `headers`
makes `replay_request` return `None` (after logging), for every transport
and override — the validation loop returns before any request is issued,
and the total model raises nothing. -/
theorem replay_missing_required_none (http : HttpOracle)
    (rd : List (String × Json)) (mp : Option (List (String × Json)))
    (h : rd.lookup "method" = none ∨ rd.lookup "url" = none ∨
      rd.lookup "headers" = none) :
    replay_request http rd mp = none := by
  rcases h with h | h | h
  · simp [replay_request, h]
  · cases hm : rd.lookup "method" <;> simp [replay_request, hm, h]
  · cases hm : rd.lookup "method" <;> cases hu : rd.lookup "url" <;>
      simp [replay_request, hm, hu, h]

/-- Witness for C8 at the empty record. -/
theorem replay_missing_required_none_witness :
    replay_request (fun _ => none) [] none = none :=
  replay_missing_required_none (fun _ => none) [] none (Or.inl rfl)

/-- C9: writing a sequence of `CapturedRequest` records to the capture log
as JSON (as `RequestCapture.request` does) and reloading it with
`load_captured_requests` yields the records field-for-field: the
serialise-then-deserialise round trip is the identity. -/
theorem capture_log_round_trip (rs : List CapturedRequest) :
    load_captured_requests (writeCaptureLog rs) = rs := by
  have h1 : (writeCaptureLog rs).data
      = '[' :: (dumpLogBody rs ++ ']' :: []) := rfl
  have h2 : dropLit ['['] ('[' :: (dumpLogBody rs ++ ']' :: []))
      = some (dumpLogBody rs ++ ']' :: []) := by
    rw [dropLit_cons, dropLit_nil]
  have h3 := parseLogBody_dump rs []
  simp only [load_captured_requests, String.toList, h1, parseLog, h2, h3]

/-- C10: the deduplication set is shared across all keywords in one run:
each identity key occurs at most once in the aggregated catalog across
all keyword lists combined, so an item already emitted under one keyword
is omitted from every later keyword's list; concretely the `"k2"` file's
repeat of the `"k1"` item contributes nothing. -/
theorem extractor_global_dedup :
    (∀ (files : List (String × Json)) (cat : Catalog),
      extract_all_products files = .ok cat →
      ∀ key, keyCount (catProducts cat) key ≤ 1) ∧
    extract_all_products [("k1", fileOneA), ("k2", fileTwoA)]
      = .ok [("k1", [⟨"A", 5⟩])] := by
  constructor
  · intro files cat h key
    obtain ⟨ex, hinv, hmono, hfiles⟩ :=
      extractGo_ok files ([], []) cat h ExtInv_init
    exact hinv.1 key
  · have h5 : (500 : ℚ) / 100 = 5 := by norm_num
    simp [extract_all_products, extractGo, pathOnSaleList, processItems,
      itemToProduct, itemA, fileOneA, fileTwoA, Json.getKey, List.lookup,
      addToCatalog, item_key, h5]

/-- Witness for C10. -/
theorem extractor_global_dedup_witness :
    keyCount (catProducts [("k1", [(⟨"A", 5⟩ : Product)])]) ("A", 5) ≤ 1 :=
  extractor_global_dedup.1 [("k1", fileOneA), ("k2", fileTwoA)]
    [("k1", [⟨"A", 5⟩])] extractor_global_dedup.2 ("A", 5)
